import Mathlib

/-!
Verification development for the ldap-mock query-matching kernel.

The Go sources are shallowly embedded: Go strings become `List Char`
(the repository only handles ASCII filter text, so the byte/rune
distinction is immaterial), Go maps with string keys become association
lists where the later binding wins (matching Go's write-then-overwrite
semantics for the insertion sequences the code performs), and fallible
Go functions returning `(T, error)` become `Except String T`.
Recursive Go functions whose termination is not structural are embedded
with an explicit fuel parameter (pattern-matched so that the kernel can
evaluate them); the public entry points supply fuel that provably
suffices, and fuel-independence lemmas are proved where general
reasoning needs them.
-/

/-- Go strings, modelled as lists of characters (ASCII byte strings). -/
abbrev Str := List Char

/-- Conversion from a Lean string literal to the `Str` model. -/
def s2l (s : String) : Str := s.data

/-- ASCII case folding of one character, as Go `strings.ToLower` acts on ASCII. -/
def lowerChar (c : Char) : Char :=
  if 'A' ≤ c ∧ c ≤ 'Z' then Char.ofNat (c.toNat + 32) else c

/-- Go `strings.ToLower` on ASCII strings. -/
def lower (s : Str) : Str := s.map lowerChar

/-- Go `strings.EqualFold` restricted to ASCII: equality after case folding. -/
def eqFold (a b : Str) : Bool := decide (lower a = lower b)

/-- Go `strings.HasPrefix s p`. -/
def hasPre : Str → Str → Bool
  | _, [] => true
  | [], _ :: _ => false
  | c :: cs, p :: ps => decide (c = p) && hasPre cs ps

/-- Go `strings.HasSuffix s p`. -/
def hasSuf (s p : Str) : Bool := hasPre s.reverse p.reverse

/-- Go `strings.Index s sub`: index of the first occurrence, `none` for Go's `-1`. -/
def indexOf : Str → Str → Option Nat
  | [], sub => if sub = [] then some 0 else none
  | c :: rest, sub =>
    if hasPre (c :: rest) sub then some 0
    else (indexOf rest sub).map (· + 1)

/-- Lexicographic `a ≤ b` on Go strings (byte order; ASCII here). -/
def strLe : Str → Str → Bool
  | [], _ => true
  | _ :: _, [] => false
  | a :: as, b :: bs => decide (a < b) || (decide (a = b) && strLe as bs)

/-- White space for Go `strings.TrimSpace` (the ASCII cases). -/
def isSpaceGo (c : Char) : Bool :=
  c = ' ' || c = '\t' || c = '\n' || c = '\x0b' || c = '\x0c' || c = '\r'

/-- Go `strings.TrimSpace` on ASCII strings. -/
def trimSpace (s : Str) : Str :=
  ((s.dropWhile isSpaceGo).reverse.dropWhile isSpaceGo).reverse

/-- Go `strings.Split value "*"`: split at every `*`, keeping empty segments. -/
def splitStar : Str → List Str
  | [] => [[]]
  | c :: rest =>
    match splitStar rest with
    | [] => []
    | p :: ps => if c = '*' then [] :: p :: ps else (c :: p) :: ps

/-- The `FilterType` enumeration from filter.go. -/
inductive FilterType where
  | and | or | not | equal | approx | greaterOrEqual | lessOrEqual | present | substring
deriving DecidableEq, Repr

/-- The `FilterNode` struct from filter.go: one node of the parsed filter tree.
Unused fields of a given node kind hold their Go zero values (empty). -/
inductive FilterNode where
  | mk (ty : FilterType) (attr : Str) (value : Str) (children : List FilterNode)
      (initial : Str) (anyParts : List Str) (final : Str)

/-- Field `Type` of `FilterNode`. -/
def FilterNode.ty : FilterNode → FilterType
  | .mk t _ _ _ _ _ _ => t

/-- Field `Attr` of `FilterNode`. -/
def FilterNode.attr : FilterNode → Str
  | .mk _ a _ _ _ _ _ => a

/-- Field `Value` of `FilterNode`. -/
def FilterNode.value : FilterNode → Str
  | .mk _ _ v _ _ _ _ => v

/-- Field `Children` of `FilterNode`. -/
def FilterNode.children : FilterNode → List FilterNode
  | .mk _ _ _ cs _ _ _ => cs

/-- Field `Initial` of `FilterNode`. -/
def FilterNode.initial : FilterNode → Str
  | .mk _ _ _ _ i _ _ => i

/-- Field `Any` of `FilterNode`. -/
def FilterNode.anyParts : FilterNode → List Str
  | .mk _ _ _ _ _ an _ => an

/-- Field `Final` of `FilterNode`. -/
def FilterNode.final : FilterNode → Str
  | .mk _ _ _ _ _ _ f => f

/-- Go `parseSubstringFilter` from filter.go: split the value on `*`;
a non-empty first segment is `Initial`, a non-empty last segment is
`Final`, non-empty interior segments are `Any`. -/
def parseSubstringFilter (attr value : Str) : Except String FilterNode :=
  match splitStar value with
  | [] => .error ("invalid substring filter")
  | p0 :: rest =>
    let ini := if p0 ≠ [] then p0 else []
    let fin :=
      match rest.getLast? with
      | some l => if l ≠ [] then l else []
      | none => []
    let anys := rest.dropLast.filter (fun p => p ≠ [])
    .ok (FilterNode.mk .substring (lower attr) [] [] ini anys fin)

/-- Split a string at its first `=`, returning the parts before and after. -/
def splitAtEq : Str → Option (Str × Str)
  | [] => none
  | c :: rest =>
    if c = '=' then some ([], rest)
    else (splitAtEq rest).map (fun p => (c :: p.1, p.2))

/-- Go `parseItem` from filter.go: parse a leaf comparison. The character
before the first `=` disambiguates `~=`, `>=`, `<=`; a value of exactly `*`
is a presence filter; a value containing `*` is a substring filter. -/
def parseItem (s : Str) : Except String FilterNode :=
  match splitAtEq s with
  | none => .error ("invalid filter item")
  | some (attr, value) =>
    if attr.getLast? = some '~' then
      .ok (FilterNode.mk .approx (lower attr.dropLast) value [] [] [] [])
    else if attr.getLast? = some '>' then
      .ok (FilterNode.mk .greaterOrEqual (lower attr.dropLast) value [] [] [] [])
    else if attr.getLast? = some '<' then
      .ok (FilterNode.mk .lessOrEqual (lower attr.dropLast) value [] [] [] [])
    else if value = ['*'] then
      .ok (FilterNode.mk .present (lower attr) [] [] [] [] [])
    else if value.contains '*' then
      parseSubstringFilter attr value
    else
      .ok (FilterNode.mk .equal (lower attr) value [] [] [] [])

/-- The balanced-parenthesis scan of Go `parseFilterList`: walk the string
counting depth; when a `)` brings the depth back to zero, return the span
up to and including it together with the remainder. `none` means the
depth never returned to zero (unbalanced). -/
def spanSplit : Str → Int → Str → Option (Str × Str)
  | [], _, _ => none
  | c :: rest, depth, acc =>
    if c = '(' then spanSplit rest (depth + 1) (c :: acc)
    else if c = ')' then
      if depth - 1 = 0 then some ((c :: acc).reverse, rest)
      else spanSplit rest (depth - 1) (c :: acc)
    else spanSplit rest depth (c :: acc)

mutual

/-- Go `ParseFilter` from filter.go (fuel-indexed): trim, require the text
to start with `(` and end with `)`, and parse the interior. -/
def parseFilterF : Nat → Str → Except String FilterNode
  | 0, _ => .error ("out of fuel")
  | n + 1, s =>
    let t := trimSpace s
    if t.length = 0 then .error ("empty filter")
    else if ¬ (t.head? = some '(' ∧ t.getLast? = some ')') then
      .error ("filter must be enclosed in parentheses")
    else parseFilterCompF n ((t.drop 1).dropLast)

/-- Go `parseFilterComp` from filter.go (fuel-indexed): dispatch on the
first character: `&`, `|` parse a child list, `!` wraps a parsed filter,
anything else is a leaf item. -/
def parseFilterCompF : Nat → Str → Except String FilterNode
  | 0, _ => .error ("out of fuel")
  | n + 1, s =>
    match s with
    | [] => .error ("empty filter component")
    | c :: rest =>
      if c = '&' then parseFilterListF n rest FilterType.and
      else if c = '|' then parseFilterListF n rest FilterType.or
      else if c = '!' then
        match parseFilterF n rest with
        | .error e => .error ("parse NOT filter: " ++ e)
        | .ok child => .ok (FilterNode.mk .not [] [] [child] [] [] [])
      else parseItem (c :: rest)

/-- Go `parseFilterList` from filter.go (fuel-indexed): collect the
balanced `(...)` spans and parse each as a child; at least one child is
required. -/
def parseFilterListF : Nat → Str → FilterType → Except String FilterNode
  | 0, _, _ => .error ("out of fuel")
  | n + 1, s, ft =>
    match parseChildrenF n s with
    | .error e => .error e
    | .ok [] => .error ("empty filter list")
    | .ok cs => .ok (FilterNode.mk ft [] [] cs [] [] [])

/-- The child-collecting loop of Go `parseFilterList` (fuel-indexed). -/
def parseChildrenF : Nat → Str → Except String (List FilterNode)
  | 0, _ => .error ("out of fuel")
  | n + 1, s =>
    match s with
    | [] => .ok []
    | c :: rest =>
      if ¬ c = '(' then .error ("expected ( in filter list")
      else
        match spanSplit (c :: rest) 0 [] with
        | none => .error ("unbalanced parentheses in filter list")
        | some (span, remaining) =>
          match parseFilterF n span with
          | .error e => .error e
          | .ok child =>
            match parseChildrenF n remaining with
            | .error e => .error e
            | .ok cs => .ok (child :: cs)

end

/-- Go `ParseFilter`, with fuel that suffices for any input (each
recursive call strictly shrinks the string being parsed, and at most
three fuel units are consumed per remaining character plus slack). -/
def parseFilter (s : Str) : Except String FilterNode :=
  parseFilterF (3 * s.length + 3) s

/-- The `any`-segments loop of Go `matchSubstring`: each segment (case
folded) must occur in the remaining text; the scan resumes just past it. -/
def anyLoop : Str → List Str → Bool
  | _, [] => true
  | v, p :: ps =>
    let pl := lower p
    match indexOf v pl with
    | none => false
    | some i => anyLoop (v.drop (i + pl.length)) ps

/-- Go `matchSubstring` from filter.go: case fold everything; strip a
non-empty `initial` prefix, then check and strip a non-empty `final`
suffix against the remainder left after the prefix strip, then run the
`any` loop on what is left. -/
def matchSubstring (value initial : Str) (anys : List Str) (final : Str) : Bool :=
  let v0 := lower value
  let ini := lower initial
  let fin := lower final
  if ini ≠ [] ∧ ¬ hasPre v0 ini = true then false
  else
    let v1 := if ini ≠ [] then v0.drop ini.length else v0
    if fin ≠ [] ∧ ¬ hasSuf v1 fin = true then false
    else
      let v2 := if fin ≠ [] then v1.take (v1.length - fin.length) else v1
      anyLoop v2 anys

/-- Attribute sets: Go `map[string]string`, modelled as the insertion
sequence; a later binding overwrites an earlier one of the same key. -/
abbrev AttrMap := List (Str × Str)

/-- Go map lookup on the insertion-sequence model: the last binding of a
key wins, as a later `m[k] = v` overwrites an earlier one. -/
def lookupA : AttrMap → Str → Option Str
  | [], _ => none
  | p :: rest, k =>
    match lookupA rest k with
    | some v => some v
    | none => if p.1 = k then some p.2 else none

/-- The key normalization of Go `MatchFilter`: every key is lower-cased. -/
def normalizeAttrs (m : AttrMap) : AttrMap := m.map (fun p => (lower p.1, p.2))

mutual

/-- Node count of a filter tree (used as fuel for the tree recursions;
it is computable, unlike the `SizeOf` instance of a nested inductive). -/
def sizeFN : FilterNode → Nat
  | .mk _ _ _ cs _ _ _ => 1 + sizeFNL cs

/-- Node count of a list of filter trees. -/
def sizeFNL : List FilterNode → Nat
  | [] => 0
  | f :: fs => sizeFN f + sizeFNL fs

end

/-- Go `matchFilterInternal` from filter.go (fuel-indexed; the fuel only
bounds the tree depth and `matchFilter` supplies enough of it). -/
def matchFilterInternalF : Nat → FilterNode → AttrMap → Bool
  | 0, _, _ => false
  | n + 1, f, attrs =>
    match f.ty with
    | .and => f.children.all (fun c => matchFilterInternalF n c attrs)
    | .or => f.children.any (fun c => matchFilterInternalF n c attrs)
    | .not =>
      match f.children with
      | [] => true
      | c :: _ => ! matchFilterInternalF n c attrs
    | .equal =>
      match lookupA attrs f.attr with
      | none => false
      | some v => eqFold v f.value
    | .approx =>
      match lookupA attrs f.attr with
      | none => false
      | some v => eqFold v f.value
    | .greaterOrEqual =>
      match lookupA attrs f.attr with
      | none => false
      | some v => strLe (lower f.value) (lower v)
    | .lessOrEqual =>
      match lookupA attrs f.attr with
      | none => false
      | some v => strLe (lower v) (lower f.value)
    | .present => (lookupA attrs f.attr).isSome
    | .substring =>
      match lookupA attrs f.attr with
      | none => false
      | some v => matchSubstring v f.initial f.anyParts f.final

/-- Go `MatchFilter` from filter.go: normalize the attribute keys to
lower case, then evaluate the tree. `sizeFN f` bounds the tree depth,
so it is sufficient fuel. -/
def matchFilter (f : FilterNode) (attrs : AttrMap) : Bool :=
  matchFilterInternalF (sizeFN f) f (normalizeAttrs attrs)

/-- One atom of the regular expressions that `wildcardMatch` generates:
the `^` and `$` anchors, `.*` (any run of non-newline characters), a
bare `.` (any single non-newline character) and literal characters. -/
inductive RAtom where
  | caret | dollar | dotStar | dot | lit (c : Char)
deriving DecidableEq, Repr

/-- Prepend an atom to the first alternation branch. -/
def consAtom (a : RAtom) : List (List RAtom) → List (List RAtom)
  | [] => [[a]]
  | b :: bs => (a :: b) :: bs

/-- Parse the fragment of Go regexp syntax that `wildcardMatch` emits
into alternation branches of atom sequences: `\\c` is a literal `c`, an
unescaped `|` separates branches (as in Go regexp, where alternation has
the lowest precedence), `^` and `$` are anchors, `.*` is a dot-star and
a bare `.` matches any single non-newline character. The generated
patterns contain no other unescaped metacharacters. -/
def parseBranches : Str → List (List RAtom)
  | [] => [[]]
  | '\\' :: d :: rest => consAtom (.lit d) (parseBranches rest)
  | ['\\'] => [[RAtom.lit '\\']]
  | '|' :: rest => [] :: parseBranches rest
  | '^' :: rest => consAtom .caret (parseBranches rest)
  | '$' :: rest => consAtom .dollar (parseBranches rest)
  | '.' :: '*' :: rest => consAtom .dotStar (parseBranches rest)
  | '.' :: rest => consAtom .dot (parseBranches rest)
  | c :: rest => consAtom (.lit c) (parseBranches rest)

/-- Match a sequence of atoms against `s` starting at position `i`
(Go regexp semantics with default flags: `^` only at the start of the
text, `$` only at its end, `.` never matches a newline). -/
def matchAtoms (s : Str) : List RAtom → Nat → Bool
  | [], _ => true
  | .caret :: as, i => decide (i = 0) && matchAtoms s as i
  | .dollar :: as, i => decide (i = s.length) && matchAtoms s as i
  | .dotStar :: as, i =>
    (List.range (s.length + 1 - i)).any fun d =>
      ((s.drop i).take d).all (fun ch => decide (ch ≠ '\n')) && matchAtoms s as (i + d)
  | .dot :: as, i =>
    decide (i < s.length) && decide ((s.getD i '\n') ≠ '\n') && matchAtoms s as (i + 1)
  | .lit c :: as, i =>
    decide (i < s.length) && decide (s.getD i (Char.ofNat 0) = c) && matchAtoms s as (i + 1)

/-- Go `regexp.MatchString re s`: some alternation branch matches
somewhere in `s` (an unanchored search; anchoring comes only from `^`
and `$` atoms inside a branch). -/
def reMatchStr (re : Str) (s : Str) : Bool :=
  (parseBranches re).any fun b =>
    (List.range (s.length + 1)).any fun i => matchAtoms s b i

/-- The metacharacters that Go `wildcardMatch` escapes (note: `|` is not
among them). -/
def isMeta (c : Char) : Bool :=
  c = '.' || c = '+' || c = '?' || c = '(' || c = ')' ||
  c = '[' || c = ']' || c = '\x7b' || c = '\x7d' || c = '^' || c = '$' || c = '\\'

/-- The per-character translation of Go `wildcardMatch`: `*` becomes
`.*`, an escaped metacharacter becomes `\\c`, anything else is copied. -/
def charTrans (c : Char) : Str :=
  if c = '*' then ['.', '*'] else if isMeta c then ['\\', c] else [c]

/-- The regex string Go `wildcardMatch` builds: `^` ++ translation ++ `$`. -/
def buildRegex (p : Str) : Str :=
  '^' :: (p.map charTrans).flatten ++ ['$']

/-- Go `wildcardMatch` from the rule engine: lower-case both strings,
compile the pattern and run Go's regexp match. -/
def wildcardMatch (pat str : Str) : Bool :=
  reMatchStr (buildRegex (lower pat)) (lower str)

/-- Modelled from the spec's words for the wildcard comparison (claim
C4): an anchored full-string match of the rule value against the request
value where `*` matches any run of characters (including the empty run)
and every other character — metacharacter or not — is literal; both
sides case folded as the comparator folds them. -/
def specWildAux : Str → Str → Bool
  | [], s => decide (s = [])
  | c :: ps, s =>
    if c = '*' then
      (List.range (s.length + 1)).any fun d => specWildAux ps (s.drop d)
    else
      match s with
      | [] => false
      | x :: rest => decide (x = c) && specWildAux ps rest

/-- Spec-described wildcard match (see `specWildAux`). -/
def specWildcardMatch (pat str : Str) : Bool :=
  specWildAux (lower pat) (lower str)

/-- Go `filtersMatch` from the rule engine (fuel-indexed; the fuel only
bounds the recursion depth and `filtersMatch` supplies enough of it).
On a type mismatch an `Or` rule matches if any of its children matches
the whole request, and an `And` request matches if the whole rule
matches any of its children; on equal types: `And`/`Or` need the rule's
children to be at most as many as the request's and each rule child to
match some request child; `Not` compares the sole children (empty sides
must both be empty); leaf comparisons fold case, and a comparison rule
value containing `*` is tested with `wildcardMatch`. -/
def filtersMatchF : Nat → FilterNode → FilterNode → Bool
  | 0, _, _ => false
  | n + 1, rule, req =>
    if ¬ rule.ty = req.ty then
      if rule.ty = .or then rule.children.any (fun c => filtersMatchF n c req)
      else if req.ty = .and then req.children.any (fun c => filtersMatchF n rule c)
      else false
    else
      match rule.ty with
      | .and =>
        decide (rule.children.length ≤ req.children.length) &&
        rule.children.all (fun rc => req.children.any (fun qc => filtersMatchF n rc qc))
      | .or =>
        decide (rule.children.length ≤ req.children.length) &&
        rule.children.all (fun rc => req.children.any (fun qc => filtersMatchF n rc qc))
      | .not =>
        match rule.children, req.children with
        | [], [] => true
        | [], _ :: _ => false
        | _ :: _, [] => false
        | rc :: _, qc :: _ => filtersMatchF n rc qc
      | .equal =>
        eqFold rule.attr req.attr &&
        (if rule.value.contains '*' then wildcardMatch rule.value req.value
         else eqFold rule.value req.value)
      | .approx =>
        eqFold rule.attr req.attr &&
        (if rule.value.contains '*' then wildcardMatch rule.value req.value
         else eqFold rule.value req.value)
      | .greaterOrEqual =>
        eqFold rule.attr req.attr &&
        (if rule.value.contains '*' then wildcardMatch rule.value req.value
         else eqFold rule.value req.value)
      | .lessOrEqual =>
        eqFold rule.attr req.attr &&
        (if rule.value.contains '*' then wildcardMatch rule.value req.value
         else eqFold rule.value req.value)
      | .present => eqFold rule.attr req.attr
      | .substring =>
        eqFold rule.attr req.attr &&
        (rule.initial.isEmpty || eqFold rule.initial req.initial) &&
        (rule.final.isEmpty || eqFold rule.final req.final) &&
        (rule.anyParts.isEmpty ||
          (decide (rule.anyParts.length = req.anyParts.length) &&
           (rule.anyParts.zip req.anyParts).all (fun pq => eqFold pq.1 pq.2)))

/-- Go `filtersMatch`: `sizeOf rule + sizeOf req` bounds the recursion
depth (every recursive call strictly shrinks the pair), so it is
sufficient fuel. -/
def filtersMatch (rule req : FilterNode) : Bool :=
  filtersMatchF (sizeFN rule + sizeFN req) rule req

/-- A fixture `User`: an identity `CN` plus declared attributes (the
YAML mapping, modelled as its insertion sequence). -/
structure User where
  cn : Str
  attrs : AttrMap
deriving DecidableEq

/-- A `Group` from the mock specification (named `LDAPGroup` here only
because `Group` is taken by Mathlib). -/
structure LDAPGroup where
  cn : Str
  members : List Str
  attrs : AttrMap
deriving DecidableEq

/-- A rule `Response`: the canned payload. -/
structure Response where
  users : List User
  groups : List LDAPGroup
deriving DecidableEq

/-- A `Rule` from the mock specification. -/
structure Rule where
  id : Str
  name : Str
  filter : Str
  baseDN : Str
  scope : Str
  priority : Int
  response : Response
deriving DecidableEq

/-- The `LDAPScope` enumeration from the rule engine. -/
inductive LDAPScope where
  | base | one | sub
deriving DecidableEq, Repr

/-- Go `ParseScope`: case-insensitive name, everything else defaults to `sub`. -/
def parseScope (s : Str) : LDAPScope :=
  let l := lower s
  if l = s2l ("base") then .base
  else if l = s2l ("one") then .one
  else if l = s2l ("sub") then .sub
  else .sub

/-- A `SearchRequest` handed to the rule engine. -/
structure SearchRequest where
  baseDN : Str
  scope : LDAPScope
  filter : Str
deriving DecidableEq

/-- Go `matchRuleFilter`: parse both filter texts; a parse failure on
either side is a non-match, otherwise compare structurally. -/
def matchRuleFilter (ruleFilter reqFilter : Str) : Bool :=
  match parseFilter ruleFilter with
  | .error _ => false
  | .ok ruleF =>
    match parseFilter reqFilter with
    | .error _ => false
    | .ok reqF => filtersMatch ruleF reqF

/-- Whether one rule accepts the request, exactly the three `continue`
guards of Go `FindMatchingRule`: a declared `BaseDN` must equal the
request's case-insensitively, a declared `Scope` must parse to the
request's scope, and the filters must match. -/
def ruleMatches (r : Rule) (req : SearchRequest) : Bool :=
  (r.baseDN.isEmpty || eqFold r.baseDN req.baseDN) &&
  (r.scope.isEmpty || decide (parseScope r.scope = req.scope)) &&
  matchRuleFilter r.filter req.filter

/-- Go `FindMatchingRule`, as the iteration over the engine's (already
sorted) rule list: the first rule whose guards all pass wins. -/
def findMatchingRule : List Rule → SearchRequest → Option Rule
  | [], _ => none
  | r :: rest, req =>
    if ruleMatches r req then some r else findMatchingRule rest req

/-- The attribute set Go `filterUsers` builds for one user: first the
identity under the reserved key `cn`, then the declared attributes
written over it. -/
def buildAttrs (u : User) : AttrMap :=
  (s2l ("cn"), u.cn) :: u.attrs

/-- Go `filterUsers`: the universal filter `(objectClass=*)` and the
empty filter return every user; a filter that fails to parse also
returns every user (fail open); otherwise keep the users the parsed
filter matches. -/
def filterUsers (users : List User) (filterStr : Str) : List User :=
  if filterStr = s2l ("(objectClass=*)") ∨ filterStr = [] then users
  else
    match parseFilter filterStr with
    | .error _ => users
    | .ok f => users.filter (fun u => matchFilter f (buildAttrs u))

/-- Go `buildFilter`: an empty attribute or the reserved attribute
`searchFingerprint` yields the universal filter; anything else is the
plain concatenation with no escaping. -/
def buildFilter (attr value : Str) : Str :=
  if attr = [] ∨ attr = s2l ("searchFingerprint") then s2l ("(objectClass=*)")
  else '(' :: attr ++ '=' :: value ++ [')']

/-- The atom a single pattern character turns into: `*` becomes a
dot-star, everything else a literal (the escaping of `charTrans` only
protects the literal reading). -/
def transAtom (c : Char) : RAtom := if c = '*' then .dotStar else .lit c

/-- Atom sequence of a whole wildcard pattern. -/
def transAtoms (w : Str) : List RAtom := w.map transAtom

/-- The body of the regex `wildcardMatch` builds (everything between the
`^` and `$` anchors). -/
def regexBody (w : Str) : Str := (w.map charTrans).flatten

/-- Prepend a sequence of atoms to the first alternation branch. -/
def consAtoms (as : List RAtom) (bs : List (List RAtom)) : List (List RAtom) :=
  as.foldr consAtom bs

theorem list_any_congr {α : Type} {l : List α} {f g : α → Bool}
    (h : ∀ a ∈ l, f a = g a) : l.any f = l.any g := by
  induction l with
  | nil => rfl
  | cons x xs ih =>
    simp only [List.any_cons]
    rw [h x (List.mem_cons_self x xs), ih (fun a ha => h a (List.mem_cons_of_mem x ha))]

theorem list_all_congr {α : Type} {l : List α} {f g : α → Bool}
    (h : ∀ a ∈ l, f a = g a) : l.all f = l.all g := by
  induction l with
  | nil => rfl
  | cons x xs ih =>
    simp only [List.all_cons]
    rw [h x (List.mem_cons_self x xs), ih (fun a ha => h a (List.mem_cons_of_mem x ha))]

theorem mem_zip_self {α : Type} {l : List α} {p : α × α} (h : p ∈ l.zip l) : p.1 = p.2 := by
  induction l with
  | nil => simp at h
  | cons x xs ih =>
    simp only [List.zip_cons_cons, List.mem_cons] at h
    rcases h with h | h
    · rw [h]
    · exact ih h

theorem sizeFN_pos (f : FilterNode) : 1 ≤ sizeFN f := by
  cases f with
  | mk t a v cs i an fi => simp [sizeFN]

theorem sizeFN_eq_children (f : FilterNode) : sizeFN f = 1 + sizeFNL f.children := by
  cases f with
  | mk t a v cs i an fi => rfl

theorem sizeFNL_mem {c : FilterNode} {cs : List FilterNode} (h : c ∈ cs) :
    sizeFN c ≤ sizeFNL cs := by
  induction cs with
  | nil => simp at h
  | cons x xs ih =>
    rcases List.mem_cons.mp h with h | h
    · subst h; simp [sizeFNL]
    · have := ih h
      simp only [sizeFNL]
      omega

theorem sizeFN_child {c f : FilterNode} (h : c ∈ f.children) : sizeFN c < sizeFN f := by
  have h1 := sizeFNL_mem h
  have h2 := sizeFN_eq_children f
  omega

theorem filtersMatchF_congr :
    ∀ n m (rule req : FilterNode), sizeFN rule + sizeFN req ≤ n →
      sizeFN rule + sizeFN req ≤ m →
      filtersMatchF n rule req = filtersMatchF m rule req := by
  intro n
  induction n with
  | zero =>
    intro m rule req hn _
    have := sizeFN_pos rule
    have := sizeFN_pos req
    omega
  | succ n ih =>
    intro m rule req hn hm
    have hpr := sizeFN_pos rule
    have hpq := sizeFN_pos req
    obtain ⟨m', rfl⟩ : ∃ k, m = k + 1 := ⟨m - 1, by omega⟩
    have hr := sizeFN_eq_children rule
    have hq := sizeFN_eq_children req
    show filtersMatchF (n + 1) rule req = filtersMatchF (m' + 1) rule req
    simp only [filtersMatchF]
    by_cases hty : rule.ty = req.ty
    · rw [if_neg (not_not_intro hty), if_neg (not_not_intro hty)]
      cases h : rule.ty with
      | and =>
        show (decide (rule.children.length ≤ req.children.length) &&
            rule.children.all fun rc => req.children.any fun qc => filtersMatchF n rc qc) =
          (decide (rule.children.length ≤ req.children.length) &&
            rule.children.all fun rc => req.children.any fun qc => filtersMatchF m' rc qc)
        congr 1
        apply list_all_congr
        intro rc hrc
        apply list_any_congr
        intro qc hqc
        have h1 := sizeFN_child hrc
        have h2 := sizeFN_child hqc
        exact ih (m') rc qc (by omega) (by omega)
      | or =>
        show (decide (rule.children.length ≤ req.children.length) &&
            rule.children.all fun rc => req.children.any fun qc => filtersMatchF n rc qc) =
          (decide (rule.children.length ≤ req.children.length) &&
            rule.children.all fun rc => req.children.any fun qc => filtersMatchF m' rc qc)
        congr 1
        apply list_all_congr
        intro rc hrc
        apply list_any_congr
        intro qc hqc
        have h1 := sizeFN_child hrc
        have h2 := sizeFN_child hqc
        exact ih (m') rc qc (by omega) (by omega)
      | not =>
        cases hrc : rule.children with
        | nil => cases req.children <;> rfl
        | cons rc rcs =>
          cases hqc : req.children with
          | nil => rfl
          | cons qc qcs =>
            have h1 : rc ∈ rule.children := by rw [hrc]; exact List.mem_cons_self rc rcs
            have h2 : qc ∈ req.children := by rw [hqc]; exact List.mem_cons_self qc qcs
            have h3 := sizeFN_child h1
            have h4 := sizeFN_child h2
            exact ih (m') rc qc (by omega) (by omega)
      | equal => rfl
      | approx => rfl
      | greaterOrEqual => rfl
      | lessOrEqual => rfl
      | present => rfl
      | substring => rfl
    · rw [if_pos hty, if_pos hty]
      by_cases hor : rule.ty = FilterType.or
      · rw [if_pos hor, if_pos hor]
        apply list_any_congr
        intro c hc
        have h1 := sizeFN_child hc
        exact ih (m') c req (by omega) (by omega)
      · rw [if_neg hor, if_neg hor]
        by_cases hand : req.ty = FilterType.and
        · rw [if_pos hand, if_pos hand]
          apply list_any_congr
          intro c hc
          have h1 := sizeFN_child hc
          exact ih (m') rule c (by omega) (by omega)
        · rw [if_neg hand, if_neg hand]

theorem filtersMatchF_eq_filtersMatch {n : Nat} {rule req : FilterNode}
    (h : sizeFN rule + sizeFN req ≤ n) :
    filtersMatchF n rule req = filtersMatch rule req :=
  filtersMatchF_congr n (sizeFN rule + sizeFN req) rule req h (Nat.le_refl _)

theorem consAtom_cons (a : RAtom) (b : List RAtom) (bs : List (List RAtom)) :
    consAtom a (b :: bs) = (a :: b) :: bs := rfl

theorem consAtoms_nil (bs : List (List RAtom)) : consAtoms [] bs = bs := rfl

theorem consAtoms_cons (a : RAtom) (as : List RAtom) (bs : List (List RAtom)) :
    consAtoms (a :: as) bs = consAtom a (consAtoms as bs) := rfl

theorem consAtoms_branch (as : List RAtom) (b : List RAtom) (bs : List (List RAtom)) :
    consAtoms as (b :: bs) = (as ++ b) :: bs := by
  induction as with
  | nil => rfl
  | cons a as ih => rw [consAtoms_cons, ih, consAtom_cons, List.cons_append]

theorem regexBody_nil : regexBody [] = [] := rfl

theorem regexBody_cons (c : Char) (w : Str) :
    regexBody (c :: w) = charTrans c ++ regexBody w := by
  simp [regexBody]

theorem regexBody_append (x y : Str) :
    regexBody (x ++ y) = regexBody x ++ regexBody y := by
  simp [regexBody]

theorem parseBranches_esc (d : Char) (rest : Str) :
    parseBranches ('\\' :: d :: rest) = consAtom (.lit d) (parseBranches rest) := rfl

theorem parseBranches_bar (rest : Str) :
    parseBranches ('|' :: rest) = [] :: parseBranches rest := rfl

theorem parseBranches_caret (rest : Str) :
    parseBranches ('^' :: rest) = consAtom .caret (parseBranches rest) := rfl

theorem parseBranches_dollar (rest : Str) :
    parseBranches ('$' :: rest) = consAtom .dollar (parseBranches rest) := rfl

theorem parseBranches_dotStar (rest : Str) :
    parseBranches ('.' :: '*' :: rest) = consAtom .dotStar (parseBranches rest) := rfl

theorem parseBranches_plain {c : Char} (rest : Str) (h1 : ¬ c = '\\') (h2 : ¬ c = '|')
    (h3 : ¬ c = '^') (h4 : ¬ c = '$') (h5 : ¬ c = '.') :
    parseBranches (c :: rest) = consAtom (.lit c) (parseBranches rest) := by
  cases rest with
  | nil => simp [parseBranches, h1, h2, h3, h4, h5]
  | cons d rest2 => simp [parseBranches, h1, h2, h3, h4, h5]

theorem isMeta_backslash : isMeta '\\' = true := rfl

theorem charTrans_star : charTrans '*' = ['.', '*'] := rfl

theorem charTrans_meta {c : Char} (h1 : ¬ c = '*') (h2 : isMeta c = true) :
    charTrans c = ['\\', c] := by
  simp [charTrans, h1, h2]

theorem charTrans_other {c : Char} (h1 : ¬ c = '*') (h2 : isMeta c = false) :
    charTrans c = [c] := by
  simp [charTrans, h1, h2]

theorem transAtoms_nil : transAtoms [] = [] := rfl

theorem transAtoms_cons (c : Char) (w : Str) :
    transAtoms (c :: w) = transAtom c :: transAtoms w := rfl

theorem parseBranches_body (w : Str) (rest : Str) (hw : '|' ∉ w) :
    parseBranches (regexBody w ++ rest) =
      consAtoms (transAtoms w) (parseBranches rest) := by
  induction w with
  | nil => rw [regexBody_nil, List.nil_append, transAtoms_nil, consAtoms_nil]
  | cons c w ih =>
    have hc : ¬ c = '|' := fun h => hw (h ▸ List.mem_cons_self c w)
    have hw' : '|' ∉ w := fun h => hw (List.mem_cons_of_mem c h)
    rw [regexBody_cons, List.append_assoc, transAtoms_cons, consAtoms_cons]
    by_cases hstar : c = '*'
    · subst hstar
      rw [charTrans_star]
      show parseBranches ('.' :: '*' :: (regexBody w ++ rest)) = _
      rw [parseBranches_dotStar, ih hw']
      rfl
    · by_cases hmeta : isMeta c = true
      · rw [charTrans_meta hstar hmeta]
        show parseBranches ('\\' :: c :: (regexBody w ++ rest)) = _
        rw [parseBranches_esc, ih hw']
        simp [transAtom, hstar]
      · have hmeta' : isMeta c = false := by
          cases h : isMeta c
          · rfl
          · exact absurd h hmeta
        rw [charTrans_other hstar hmeta']
        have h1 : ¬ c = '\\' := by
          intro h; rw [h] at hmeta'; exact absurd hmeta' (by simp [isMeta])
        have h3 : ¬ c = '^' := by
          intro h; rw [h] at hmeta'; exact absurd hmeta' (by simp [isMeta])
        have h4 : ¬ c = '$' := by
          intro h; rw [h] at hmeta'; exact absurd hmeta' (by simp [isMeta])
        have h5 : ¬ c = '.' := by
          intro h; rw [h] at hmeta'; exact absurd hmeta' (by simp [isMeta])
        show parseBranches (c :: (regexBody w ++ rest)) = _
        rw [parseBranches_plain _ h1 hc h3 h4 h5, ih hw']
        simp [transAtom, hstar]

theorem parseBranches_wildcard (w : Str) (hw : '|' ∉ w) :
    parseBranches (buildRegex w) = [.caret :: (transAtoms w ++ [.dollar])] := by
  show parseBranches ('^' :: (regexBody w ++ ['$'])) = _
  rw [parseBranches_caret, parseBranches_body w ['$'] hw, parseBranches_dollar]
  show consAtom .caret (consAtoms (transAtoms w) [[RAtom.dollar]]) = _
  rw [consAtoms_branch, consAtom_cons]

theorem char_toNat_le_of_le {c d : Char} (h : c ≤ d) : c.toNat ≤ d.toNat := by
  rw [Char.le_def, UInt32.le_def, BitVec.le_def] at h
  exact h

theorem char_ofNat_toNat {n : Nat} (h1 : 97 ≤ n) (h2 : n ≤ 122) :
    (Char.ofNat n).toNat = n := by
  have hv : n.isValidChar := Or.inl (by omega)
  rw [Char.ofNat, dif_pos hv]
  rfl

theorem lowerChar_preserve {c t : Char} (ht : ¬ (97 ≤ t.toNat ∧ t.toNat ≤ 122))
    (h : lowerChar c = t) : c = t := by
  by_cases hA : 'A' ≤ c ∧ c ≤ 'Z'
  · exfalso
    have h1 : ('A').toNat ≤ c.toNat := char_toNat_le_of_le hA.1
    have h2 : c.toNat ≤ ('Z').toNat := char_toNat_le_of_le hA.2
    have hA65 : ('A').toNat = 65 := rfl
    have hZ90 : ('Z').toNat = 90 := rfl
    rw [hA65] at h1
    rw [hZ90] at h2
    rw [lowerChar, if_pos hA] at h
    have h3 := char_ofNat_toNat (n := c.toNat + 32) (by omega) (by omega)
    have h4 : (Char.ofNat (c.toNat + 32)).toNat = t.toNat := by rw [h]
    rw [h3] at h4
    exact ht ⟨by omega, by omega⟩
  · rw [lowerChar, if_neg hA] at h
    exact h

theorem not_mem_lower_bar {p : Str} (h : '|' ∉ p) : '|' ∉ lower p := by
  intro hmem
  obtain ⟨c, hc, hlc⟩ := List.mem_map.mp hmem
  have : c = '|' := lowerChar_preserve (by decide) hlc
  exact h (this ▸ hc)

theorem not_mem_lower_nl {s : Str} (h : '\n' ∉ s) : '\n' ∉ lower s := by
  intro hmem
  obtain ⟨c, hc, hlc⟩ := List.mem_map.mp hmem
  have : c = '\n' := lowerChar_preserve (by decide) hlc
  exact h (this ▸ hc)

theorem specWildAux_cons (c : Char) (w t : Str) :
    specWildAux (c :: w) t = if c = '*'
      then ((List.range (t.length + 1)).any fun d => specWildAux w (t.drop d))
      else (match t with
        | [] => false
        | x :: rest => decide (x = c) && specWildAux w rest) := rfl

theorem matchAtoms_spec (s : Str) (hnl : '\n' ∉ s) :
    ∀ (w : Str) (i : Nat), i ≤ s.length →
      matchAtoms s (transAtoms w ++ [.dollar]) i = specWildAux w (s.drop i) := by
  intro w
  induction w with
  | nil =>
    intro i hi
    show (decide (i = s.length) && matchAtoms s [] i) = decide (s.drop i = [])
    rw [show matchAtoms s [] i = true from rfl, Bool.and_true]
    apply decide_eq_decide.mpr
    rw [List.drop_eq_nil_iff]
    omega
  | cons c w ih =>
    intro i hi
    by_cases hstar : c = '*'
    · subst hstar
      rw [transAtoms_cons, show transAtom '*' = RAtom.dotStar from rfl]
      show matchAtoms s (RAtom.dotStar :: (transAtoms w ++ [.dollar])) i = _
      simp only [matchAtoms]
      rw [specWildAux_cons, if_pos rfl]
      rw [List.length_drop, show s.length + 1 - i = s.length - i + 1 from by omega]
      apply list_any_congr
      intro d hd
      have hd' : d ≤ s.length - i := by
        have := List.mem_range.mp hd
        omega
      have hall : ((s.drop i).take d).all (fun ch => decide (ch ≠ '\n')) = true := by
        apply List.all_eq_true.mpr
        intro ch hch
        have : ch ∈ s := List.drop_subset i s (List.take_subset d (s.drop i) hch)
        exact decide_eq_true (fun hc => hnl (hc ▸ this))
      rw [hall, Bool.true_and, List.drop_drop, ih (i + d) (by omega)]
    · rw [transAtoms_cons, show transAtom c = RAtom.lit c from by simp [transAtom, hstar]]
      show matchAtoms s (RAtom.lit c :: (transAtoms w ++ [.dollar])) i = _
      simp only [matchAtoms]
      rw [specWildAux_cons, if_neg hstar]
      by_cases hlt : i < s.length
      · rw [List.drop_eq_getElem_cons hlt, List.getD_eq_getElem s _ hlt,
          ih (i + 1) (by omega)]
        simp [hlt]
      · have hdrop : s.drop i = [] := List.drop_eq_nil_iff.mpr (by omega)
        rw [hdrop]
        simp [hlt]

theorem range_any_caret (n : Nat) (g : Nat → Bool) :
    (List.range (n + 1)).any (fun i => decide (i = 0) && g i) = g 0 := by
  cases hg : g 0
  · apply Bool.eq_false_iff.mpr
    intro h
    obtain ⟨i, _, hi⟩ := List.any_eq_true.mp h
    rw [Bool.and_eq_true] at hi
    obtain ⟨h1, h2⟩ := hi
    have hz : i = 0 := of_decide_eq_true h1
    subst hz
    rw [hg] at h2
    exact Bool.false_ne_true h2
  · apply List.any_eq_true.mpr
    exact ⟨0, List.mem_range.mpr (by omega), by simp [hg]⟩

theorem wildcardMatch_eq_spec (pat str : Str) (hbar : '|' ∉ pat) (hnl : '\n' ∉ str) :
    wildcardMatch pat str = specWildcardMatch pat str := by
  have hbar' : '|' ∉ lower pat := not_mem_lower_bar hbar
  have hnl' : '\n' ∉ lower str := not_mem_lower_nl hnl
  show reMatchStr (buildRegex (lower pat)) (lower str) = specWildAux (lower pat) (lower str)
  rw [reMatchStr, parseBranches_wildcard _ hbar']
  rw [List.any_cons, List.any_nil, Bool.or_false]
  have hstep : ∀ i, matchAtoms (lower str)
      (.caret :: (transAtoms (lower pat) ++ [.dollar])) i =
      (decide (i = 0) && matchAtoms (lower str) (transAtoms (lower pat) ++ [.dollar]) i) :=
    fun i => rfl
  rw [list_any_congr (fun i _ => hstep i), range_any_caret]
  rw [matchAtoms_spec _ hnl' _ 0 (by omega), List.drop_zero]

theorem hasPre_app : ∀ (u x : Str), hasPre (u ++ x) u = true := by
  intro u
  induction u with
  | nil => intro x; cases x <;> rfl
  | cons c u ih =>
    intro x
    show (decide (c = c) && hasPre (u ++ x) u) = true
    rw [ih x]
    simp

theorem matchAtoms_lit_run (s : Str) :
    ∀ (u : Str) (rest : List RAtom) (i : Nat),
      hasPre (s.drop i) u = true →
      matchAtoms s rest (i + u.length) = true →
      matchAtoms s (transAtoms u ++ rest) i = true := by
  intro u
  induction u with
  | nil =>
    intro rest i _ h2
    simpa using h2
  | cons c u ih =>
    intro rest i h1 h2
    have hlt : i < s.length := by
      by_contra hge
      rw [List.drop_eq_nil_iff.mpr (by omega)] at h1
      exact absurd h1 (by simp [hasPre])
    have hdrop : s.drop i = s[i] :: s.drop (i + 1) := List.drop_eq_getElem_cons hlt
    rw [hdrop] at h1
    have h1' : (decide (s[i] = c) && hasPre (s.drop (i + 1)) u) = true := h1
    rw [Bool.and_eq_true] at h1'
    obtain ⟨hc, hpre⟩ := h1'
    have hci : s[i] = c := of_decide_eq_true hc
    have h2' : matchAtoms s rest ((i + 1) + u.length) = true := by
      rw [show (i + 1) + u.length = i + (c :: u).length from by simp; omega]
      exact h2
    by_cases hstar : c = '*'
    · subst hstar
      rw [transAtoms_cons, show transAtom '*' = RAtom.dotStar from rfl]
      show matchAtoms s (RAtom.dotStar :: (transAtoms u ++ rest)) i = true
      simp only [matchAtoms]
      apply List.any_eq_true.mpr
      refine ⟨1, List.mem_range.mpr (by omega), ?_⟩
      rw [Bool.and_eq_true]
      constructor
      · rw [hdrop]
        show ([s[i]].all fun ch => decide (ch ≠ '\n')) = true
        rw [hci]
        decide
      · exact ih (rest) (i + 1) hpre h2'
    · rw [transAtoms_cons, show transAtom c = RAtom.lit c from by simp [transAtom, hstar]]
      show matchAtoms s (RAtom.lit c :: (transAtoms u ++ rest)) i = true
      simp only [matchAtoms]
      rw [List.getD_eq_getElem s _ hlt, hci]
      rw [ih rest (i + 1) hpre h2']
      simp [hlt]

theorem split_at_bar : ∀ (w : Str), '|' ∈ w → ∃ a b, w = a ++ '|' :: b ∧ '|' ∉ a := by
  intro w
  induction w with
  | nil => intro h; simp at h
  | cons c w ih =>
    intro h
    by_cases hc : c = '|'
    · subst hc
      exact ⟨[], w, rfl, by simp⟩
    · have hw : '|' ∈ w := by
        rcases List.mem_cons.mp h with h | h
        · exact absurd h.symm hc
        · exact h
      obtain ⟨a, b, hab, hna⟩ := ih hw
      refine ⟨c :: a, b, by rw [hab]; rfl, ?_⟩
      intro hmem
      rcases List.mem_cons.mp hmem with h | h
      · exact hc h.symm
      · exact hna h

theorem parseBranches_first_branch (a b : Str) (ha : '|' ∉ a) :
    parseBranches (buildRegex (a ++ '|' :: b)) =
      (.caret :: (transAtoms a ++ [])) :: parseBranches (regexBody b ++ ['$']) := by
  show parseBranches ('^' :: (regexBody (a ++ '|' :: b) ++ ['$'])) = _
  rw [parseBranches_caret, regexBody_append, regexBody_cons,
    show charTrans '|' = ['|'] from rfl]
  rw [List.append_assoc, List.append_assoc]
  rw [parseBranches_body a _ ha]
  show consAtom RAtom.caret (consAtoms (transAtoms a)
    (parseBranches ('|' :: (regexBody b ++ ['$'])))) = _
  rw [parseBranches_bar, consAtoms_branch, consAtom_cons]

theorem wildcardMatch_self (v : Str) : wildcardMatch v v = true := by
  show reMatchStr (buildRegex (lower v)) (lower v) = true
  by_cases hbar : '|' ∈ lower v
  · obtain ⟨a, b, hab, hna⟩ := split_at_bar (lower v) hbar
    show ((parseBranches (buildRegex (lower v))).any fun br =>
      (List.range ((lower v).length + 1)).any fun i => matchAtoms (lower v) br i) = true
    rw [hab, parseBranches_first_branch a b hna, List.any_cons]
    rw [Bool.or_eq_true]
    left
    apply List.any_eq_true.mpr
    refine ⟨0, List.mem_range.mpr (by omega), ?_⟩
    show matchAtoms (a ++ '|' :: b) (RAtom.caret :: (transAtoms a ++ [])) 0 = true
    show (decide ((0 : Nat) = 0) && matchAtoms (a ++ '|' :: b) (transAtoms a ++ []) 0) = true
    rw [show decide ((0 : Nat) = 0) = true from rfl, Bool.true_and]
    apply matchAtoms_lit_run (a ++ '|' :: b) a [] 0
    · rw [List.drop_zero]
      exact hasPre_app a ('|' :: b)
    · rfl
  · show ((parseBranches (buildRegex (lower v))).any fun br =>
      (List.range ((lower v).length + 1)).any fun i => matchAtoms (lower v) br i) = true
    rw [parseBranches_wildcard _ hbar, List.any_cons, List.any_nil, Bool.or_false]
    apply List.any_eq_true.mpr
    refine ⟨0, List.mem_range.mpr (by omega), ?_⟩
    show (decide ((0 : Nat) = 0) && matchAtoms (lower v) (transAtoms (lower v) ++ [.dollar]) 0) = true
    rw [show decide ((0 : Nat) = 0) = true from rfl, Bool.true_and]
    apply matchAtoms_lit_run (lower v) (lower v) [.dollar] 0
    · rw [List.drop_zero]
      have := hasPre_app (lower v) []
      rwa [List.append_nil] at this
    · show (decide (0 + (lower v).length = (lower v).length) && matchAtoms (lower v) [] (0 + (lower v).length)) = true
      rw [show matchAtoms (lower v) [] (0 + (lower v).length) = true from rfl, Bool.and_true]
      simp

theorem eqFold_self (v : Str) : eqFold v v = true := by
  simp [eqFold]

theorem filtersMatchF_succ (n : Nat) (rule req : FilterNode) :
    filtersMatchF (n + 1) rule req =
      (if ¬ rule.ty = req.ty then
        if rule.ty = .or then rule.children.any (fun c => filtersMatchF n c req)
        else if req.ty = .and then req.children.any (fun c => filtersMatchF n rule c)
        else false
      else
        match rule.ty with
        | .and =>
          decide (rule.children.length ≤ req.children.length) &&
          rule.children.all (fun rc => req.children.any (fun qc => filtersMatchF n rc qc))
        | .or =>
          decide (rule.children.length ≤ req.children.length) &&
          rule.children.all (fun rc => req.children.any (fun qc => filtersMatchF n rc qc))
        | .not =>
          match rule.children, req.children with
          | [], [] => true
          | [], _ :: _ => false
          | _ :: _, [] => false
          | rc :: _, qc :: _ => filtersMatchF n rc qc
        | .equal =>
          eqFold rule.attr req.attr &&
          (if rule.value.contains '*' then wildcardMatch rule.value req.value
           else eqFold rule.value req.value)
        | .approx =>
          eqFold rule.attr req.attr &&
          (if rule.value.contains '*' then wildcardMatch rule.value req.value
           else eqFold rule.value req.value)
        | .greaterOrEqual =>
          eqFold rule.attr req.attr &&
          (if rule.value.contains '*' then wildcardMatch rule.value req.value
           else eqFold rule.value req.value)
        | .lessOrEqual =>
          eqFold rule.attr req.attr &&
          (if rule.value.contains '*' then wildcardMatch rule.value req.value
           else eqFold rule.value req.value)
        | .present => eqFold rule.attr req.attr
        | .substring =>
          eqFold rule.attr req.attr &&
          (rule.initial.isEmpty || eqFold rule.initial req.initial) &&
          (rule.final.isEmpty || eqFold rule.final req.final) &&
          (rule.anyParts.isEmpty ||
            (decide (rule.anyParts.length = req.anyParts.length) &&
             (rule.anyParts.zip req.anyParts).all (fun pq => eqFold pq.1 pq.2)))) := rfl

theorem filtersMatch_self_bound :
    ∀ (n : Nat) (f : FilterNode), sizeFN f ≤ n → filtersMatch f f = true := by
  intro n
  induction n with
  | zero =>
    intro f h
    have := sizeFN_pos f
    omega
  | succ n ih =>
    intro f hf
    have hpos := sizeFN_pos f
    rw [filtersMatch]
    obtain ⟨k, hk⟩ : ∃ k, sizeFN f + sizeFN f = k + 1 :=
      ⟨sizeFN f + sizeFN f - 1, by omega⟩
    have hk' : sizeFN f + sizeFN f - 1 = k := by omega
    rw [hk, filtersMatchF_succ]
    rw [if_neg (not_not_intro rfl)]
    cases hty : f.ty with
    | and =>
      show (decide (f.children.length ≤ f.children.length) &&
        f.children.all (fun rc => f.children.any (fun qc => filtersMatchF k rc qc))) = true
      rw [Bool.and_eq_true]
      refine ⟨by simp, ?_⟩
      apply List.all_eq_true.mpr
      intro rc hrc
      apply List.any_eq_true.mpr
      refine ⟨rc, hrc, ?_⟩
      have hlt := sizeFN_child hrc
      rw [filtersMatchF_eq_filtersMatch (by omega)]
      exact ih rc (by omega)
    | or =>
      show (decide (f.children.length ≤ f.children.length) &&
        f.children.all (fun rc => f.children.any (fun qc => filtersMatchF k rc qc))) = true
      rw [Bool.and_eq_true]
      refine ⟨by simp, ?_⟩
      apply List.all_eq_true.mpr
      intro rc hrc
      apply List.any_eq_true.mpr
      refine ⟨rc, hrc, ?_⟩
      have hlt := sizeFN_child hrc
      rw [filtersMatchF_eq_filtersMatch (by omega)]
      exact ih rc (by omega)
    | not =>
      cases hc : f.children with
      | nil => rfl
      | cons rc rcs =>
        show filtersMatchF k rc rc = true
        have hrc : rc ∈ f.children := by
          rw [hc]
          exact List.mem_cons_self rc rcs
        have hlt := sizeFN_child hrc
        rw [filtersMatchF_eq_filtersMatch (by omega)]
        exact ih rc (by omega)
    | equal =>
      show (eqFold f.attr f.attr &&
        (if f.value.contains '*' then wildcardMatch f.value f.value
         else eqFold f.value f.value)) = true
      rw [eqFold_self, Bool.true_and]
      by_cases hv : f.value.contains '*'
      · rw [if_pos hv]
        exact wildcardMatch_self f.value
      · rw [if_neg hv]
        exact eqFold_self f.value
    | approx =>
      show (eqFold f.attr f.attr &&
        (if f.value.contains '*' then wildcardMatch f.value f.value
         else eqFold f.value f.value)) = true
      rw [eqFold_self, Bool.true_and]
      by_cases hv : f.value.contains '*'
      · rw [if_pos hv]
        exact wildcardMatch_self f.value
      · rw [if_neg hv]
        exact eqFold_self f.value
    | greaterOrEqual =>
      show (eqFold f.attr f.attr &&
        (if f.value.contains '*' then wildcardMatch f.value f.value
         else eqFold f.value f.value)) = true
      rw [eqFold_self, Bool.true_and]
      by_cases hv : f.value.contains '*'
      · rw [if_pos hv]
        exact wildcardMatch_self f.value
      · rw [if_neg hv]
        exact eqFold_self f.value
    | lessOrEqual =>
      show (eqFold f.attr f.attr &&
        (if f.value.contains '*' then wildcardMatch f.value f.value
         else eqFold f.value f.value)) = true
      rw [eqFold_self, Bool.true_and]
      by_cases hv : f.value.contains '*'
      · rw [if_pos hv]
        exact wildcardMatch_self f.value
      · rw [if_neg hv]
        exact eqFold_self f.value
    | present =>
      show eqFold f.attr f.attr = true
      exact eqFold_self f.attr
    | substring =>
      show (eqFold f.attr f.attr &&
        (f.initial.isEmpty || eqFold f.initial f.initial) &&
        (f.final.isEmpty || eqFold f.final f.final) &&
        (f.anyParts.isEmpty ||
          (decide (f.anyParts.length = f.anyParts.length) &&
           (f.anyParts.zip f.anyParts).all (fun pq => eqFold pq.1 pq.2)))) = true
      rw [eqFold_self, eqFold_self, eqFold_self]
      have hall : ((f.anyParts.zip f.anyParts).all (fun pq => eqFold pq.1 pq.2)) = true := by
        apply List.all_eq_true.mpr
        intro pq hpq
        have := mem_zip_self hpq
        rw [this]
        exact eqFold_self pq.2
      rw [hall]
      simp

theorem filtersMatch_self (f : FilterNode) : filtersMatch f f = true :=
  filtersMatch_self_bound (sizeFN f) f (Nat.le_refl _)

/-- Claim C1: for rule and request filter trees of the same combinator
kind (both And or both Or), `filtersMatch` returns true iff the rule's
child count does not exceed the request's and every rule child
structurally matches at least one request child (each rule child is
searched independently, so the same request child may be reused); in
particular the rule `(&(cn=John))` matches the request
`(&(cn=John)(mail=john@example.com))` and the reverse application is
false. -/
theorem c1_and_or_subset :
    (∀ rule req : FilterNode, rule.ty = req.ty →
      (rule.ty = FilterType.and ∨ rule.ty = FilterType.or) →
      (filtersMatch rule req = true ↔
        rule.children.length ≤ req.children.length ∧
        ∀ rc ∈ rule.children, ∃ qc ∈ req.children, filtersMatch rc qc = true)) ∧
    matchRuleFilter (s2l ("(&(cn=John))"))
      (s2l ("(&(cn=John)(mail=john@example.com))")) = true ∧
    matchRuleFilter (s2l ("(&(cn=John)(mail=john@example.com))"))
      (s2l ("(&(cn=John))")) = false := by
  refine ⟨?_, rfl, rfl⟩
  intro rule req hty hAndOr
  rw [filtersMatch]
  have hpr := sizeFN_pos rule
  have hpq := sizeFN_pos req
  obtain ⟨k, hk⟩ : ∃ k, sizeFN rule + sizeFN req = k + 1 :=
    ⟨sizeFN rule + sizeFN req - 1, by omega⟩
  rw [hk, filtersMatchF_succ, if_neg (not_not_intro hty)]
  have hcong : ∀ rc ∈ rule.children, ∀ qc ∈ req.children,
      filtersMatchF k rc qc = filtersMatch rc qc := by
    intro rc hrc qc hqc
    apply filtersMatchF_eq_filtersMatch
    have := sizeFN_child hrc
    have := sizeFN_child hqc
    omega
  have hmain : (decide (rule.children.length ≤ req.children.length) &&
      rule.children.all (fun rc => req.children.any (fun qc => filtersMatchF k rc qc))) = true ↔
      rule.children.length ≤ req.children.length ∧
      ∀ rc ∈ rule.children, ∃ qc ∈ req.children, filtersMatch rc qc = true := by
    rw [Bool.and_eq_true, List.all_eq_true, decide_eq_true_eq]
    constructor
    · rintro ⟨h1, h2⟩
      refine ⟨h1, ?_⟩
      intro rc hrc
      obtain ⟨qc, hqc, hm⟩ := List.any_eq_true.mp (h2 rc hrc)
      exact ⟨qc, hqc, by rw [← hcong rc hrc qc hqc]; exact hm⟩
    · rintro ⟨h1, h2⟩
      refine ⟨h1, ?_⟩
      intro rc hrc
      obtain ⟨qc, hqc, hm⟩ := h2 rc hrc
      exact List.any_eq_true.mpr ⟨qc, hqc, by rw [hcong rc hrc qc hqc]; exact hm⟩
  rcases hAndOr with h | h
  · rw [h]
    exact hmain
  · rw [h]
    exact hmain

theorem c1_and_or_subset_witness :
    filtersMatch
      (FilterNode.mk .and [] []
        [FilterNode.mk .equal (s2l ("cn")) (s2l ("John")) [] [] [] []] [] [] [])
      (FilterNode.mk .and [] []
        [FilterNode.mk .equal (s2l ("cn")) (s2l ("John")) [] [] [] [],
         FilterNode.mk .equal (s2l ("mail")) (s2l ("john@example.com")) [] [] [] []]
        [] [] []) = true :=
  (c1_and_or_subset.1
    (FilterNode.mk .and [] []
      [FilterNode.mk .equal (s2l ("cn")) (s2l ("John")) [] [] [] []] [] [] [])
    (FilterNode.mk .and [] []
      [FilterNode.mk .equal (s2l ("cn")) (s2l ("John")) [] [] [] [],
       FilterNode.mk .equal (s2l ("mail")) (s2l ("john@example.com")) [] [] [] []]
      [] [] [])
    rfl (Or.inl rfl)).mpr (by decide)

/-- Claim C3 (amended): for a Substring filter with non-empty `initial`
and non-empty `final` (and no `any` segments) on a present attribute
value, evaluation succeeds iff the case-folded `initial` is a prefix of
the case-folded value AND the case-folded `final` is a suffix of the
remainder left AFTER the initial prefix has been stripped — not of the
original value; a value in which the initial prefix and the final
suffix overlap therefore fails the filter. -/
theorem c3_substring_final_remainder :
    ∀ (value initial final : Str), initial ≠ [] → final ≠ [] →
      (matchSubstring value initial [] final = true ↔
        hasPre (lower value) (lower initial) = true ∧
        hasSuf ((lower value).drop (lower initial).length) (lower final) = true) := by
  intro value ini fin hi hf
  have hli : lower ini ≠ [] := by
    simp only [lower, ne_eq, List.map_eq_nil_iff]
    exact hi
  have hlf : lower fin ≠ [] := by
    simp only [lower, ne_eq, List.map_eq_nil_iff]
    exact hf
  by_cases hp : hasPre (lower value) (lower ini) = true
  · by_cases hs : hasSuf ((lower value).drop (lower ini).length) (lower fin) = true
    · simp [matchSubstring, hli, hlf, hp, hs, anyLoop]
    · simp [matchSubstring, hli, hlf, hp, hs]
  · simp [matchSubstring, hli, hlf, hp]

theorem c3_substring_final_remainder_witness :
    matchSubstring (s2l ("abcd")) (s2l ("ab")) [] (s2l ("cd")) = true :=
  (c3_substring_final_remainder (s2l ("abcd")) (s2l ("ab")) (s2l ("cd"))
    (by decide) (by decide)).mpr ⟨rfl, rfl⟩

/-- Claim C3 counterexample: with initial "ab" and final "bc", the value
"abc" — where the initial prefix and the final suffix overlap — does NOT
satisfy the filter, although "bc" is a suffix of the original
case-folded value: the code checks the suffix against the remainder "c"
left after stripping the prefix. The parsed filter (cn=ab*bc) evaluated
on an attribute set with cn = "abc" is false, where the claim says such
a value still satisfies the filter. -/
theorem c3_counterexample :
    matchSubstring (s2l ("abc")) (s2l ("ab")) [] (s2l ("bc")) = false ∧
    hasSuf (lower (s2l ("abc"))) (lower (s2l ("bc"))) = true ∧
    parseFilter (s2l ("(cn=ab*bc)")) =
      .ok (FilterNode.mk .substring (s2l ("cn")) [] [] (s2l ("ab")) [] (s2l ("bc"))) ∧
    matchFilter (FilterNode.mk .substring (s2l ("cn")) [] [] (s2l ("ab")) [] (s2l ("bc")))
      [(s2l ("cn"), s2l ("abc"))] = false :=
  ⟨rfl, rfl, rfl, rfl⟩

/-- Claim C4 (amended): when the rule value of a comparison leaf
contains `*`, the comparator tests it as a wildcard pattern compiled to
an anchored Go regular expression; for patterns that do not contain `|`
and request values that do not contain a newline, this agrees with the
claim's semantics (anchored full-string match, `*` = any run including
the empty run, all other characters literal, case folded). The
exceptions forced by the code: the regex metacharacter `|` is NOT
escaped and acts as alternation, and `*` compiles to `.*`, which never
matches a newline character. -/
theorem c4_wildcard_literal (pat str : Str) (hbar : '|' ∉ pat) (hnl : '\n' ∉ str) :
    wildcardMatch pat str = specWildcardMatch pat str :=
  wildcardMatch_eq_spec pat str hbar hnl

theorem c4_wildcard_literal_witness :
    wildcardMatch (s2l ("J*n")) (s2l ("Jon")) = specWildcardMatch (s2l ("J*n")) (s2l ("Jon")) :=
  c4_wildcard_literal (s2l ("J*n")) (s2l ("Jon")) (by decide) (by decide)

/-- Claim C4 counterexample: the pattern "*|b" contains the regex
metacharacter `|`, which `wildcardMatch` fails to escape: the request
value "zzz" matches (the compiled regex is the alternation of an
unanchored "^.*" and "b$"), while the claim's literal reading rejects
it; and the pattern "a*b" fails against the value containing a newline
between a and b, while under the claim's reading `*` matches any run of
characters. -/
theorem c4_counterexample :
    wildcardMatch (s2l ("*|b")) (s2l ("zzz")) = true ∧
    specWildcardMatch (s2l ("*|b")) (s2l ("zzz")) = false ∧
    wildcardMatch (s2l ("a*b")) (s2l ("a\nb")) = false ∧
    specWildcardMatch (s2l ("a*b")) (s2l ("a\nb")) = true :=
  ⟨rfl, rfl, rfl, rfl⟩

/-- Claim C5: every filter tree produced by `parseFilter` structurally
matches itself — `filtersMatch f f` is true for any parsed `f`,
including trees with `*` in comparison leaf values and Substring, Not,
And and Or nodes (the proof goes through `filtersMatch_self`, which
holds for every tree). -/
theorem c5_reflexive :
    ∀ (s : Str) (f : FilterNode), parseFilter s = .ok f → filtersMatch f f = true :=
  fun _ f _ => filtersMatch_self f

theorem c5_reflexive_witness :
    filtersMatch
      (FilterNode.mk .and [] []
        [FilterNode.mk .approx (s2l ("cn")) (s2l ("J*n")) [] [] [] [],
         FilterNode.mk .not [] []
           [FilterNode.mk .substring (s2l ("sn")) [] [] (s2l ("ab")) [] (s2l ("cd"))]
           [] [] []]
        [] [] [])
      (FilterNode.mk .and [] []
        [FilterNode.mk .approx (s2l ("cn")) (s2l ("J*n")) [] [] [] [],
         FilterNode.mk .not [] []
           [FilterNode.mk .substring (s2l ("sn")) [] [] (s2l ("ab")) [] (s2l ("cd"))]
           [] [] []]
        [] [] []) = true :=
  c5_reflexive (s2l ("(&(cn~=J*n)(!(sn=ab*cd)))"))
    (FilterNode.mk .and [] []
      [FilterNode.mk .approx (s2l ("cn")) (s2l ("J*n")) [] [] [] [],
       FilterNode.mk .not [] []
         [FilterNode.mk .substring (s2l ("sn")) [] [] (s2l ("ab")) [] (s2l ("cd"))]
         [] [] []]
      [] [] []) rfl

theorem parseFilterF_succ (n : Nat) (s : Str) :
    parseFilterF (n + 1) s =
      (let t := trimSpace s
       if t.length = 0 then .error ("empty filter")
       else if ¬ (t.head? = some '(' ∧ t.getLast? = some ')') then
         .error ("filter must be enclosed in parentheses")
       else parseFilterCompF n ((t.drop 1).dropLast)) := rfl

/-- Claim C6 (amended): parse fails with a syntax error when the trimmed
text is empty, or when it does not both start with `(` and end with `)`;
a combinator with malformed children, unbalanced parentheses inside a
child list, and a leaf segment with no `=` also fail. But the outer
parentheses are NOT required to form a single enclosing pair — only the
first and the last character are inspected — so "(a=1)(b=2)" is accepted
and parses as the single leaf Equal("a", "1)(b=2"). -/
theorem c6_parse_failures :
    (∀ s : Str, trimSpace s = [] → parseFilter s = .error ("empty filter")) ∧
    (∀ s : Str, trimSpace s ≠ [] →
      ¬ ((trimSpace s).head? = some '(' ∧ (trimSpace s).getLast? = some ')') →
      parseFilter s = .error ("filter must be enclosed in parentheses")) ∧
    parseFilter (s2l ("(&)")) = .error ("empty filter list") ∧
    parseFilter (s2l ("(&(a=1)")) = .error ("unbalanced parentheses in filter list") ∧
    parseFilter (s2l ("(cn)")) = .error ("invalid filter item") ∧
    parseFilter (s2l ("(a=1)(b=2)")) =
      .ok (FilterNode.mk .equal (s2l ("a")) (s2l ("1)(b=2")) [] [] [] []) := by
  refine ⟨?_, ?_, rfl, rfl, rfl, rfl⟩
  · intro s h
    rw [parseFilter, show 3 * s.length + 3 = (3 * s.length + 2) + 1 from by omega,
      parseFilterF_succ]
    simp [h]
  · intro s h1 h2
    rw [parseFilter, show 3 * s.length + 3 = (3 * s.length + 2) + 1 from by omega,
      parseFilterF_succ]
    simp only []
    rw [if_neg (by simp [List.length_eq_zero]; exact h1), if_pos h2]

theorem c6_parse_failures_witness :
    parseFilter (s2l ("cn=John")) = .error ("filter must be enclosed in parentheses") :=
  c6_parse_failures.2.1 (s2l ("cn=John")) (by decide) (by decide)

/-- Claim C6 counterexample: "(a=1)(b=2)" starts with `(` and ends with
`)` but its outer parentheses do not form a single enclosing pair; the
claim says it is rejected, yet the parser accepts it, producing the
Equal leaf with attribute "a" and value "1)(b=2". -/
theorem c6_counterexample :
    parseFilter (s2l ("(a=1)(b=2)")) =
      .ok (FilterNode.mk .equal (s2l ("a")) (s2l ("1)(b=2")) [] [] [] []) := rfl

/-- Claim C7: `findMatchingRule` is a total function (no error case in
its type), and a rule whose own filter text fails to parse, or
confronted with a query filter text that fails to parse, is skipped —
`findMatchingRule` on that rule followed by the remaining rules equals
`findMatchingRule` on the remaining rules alone. -/
theorem c7_parse_failure_skips :
    ∀ (r : Rule) (rest : List Rule) (req : SearchRequest),
      ((parseFilter r.filter).isOk = false ∨ (parseFilter req.filter).isOk = false) →
      findMatchingRule (r :: rest) req = findMatchingRule rest req := by
  intro r rest req h
  have hm : matchRuleFilter r.filter req.filter = false := by
    simp only [matchRuleFilter]
    rcases h with h | h
    · cases hp : parseFilter r.filter with
      | error e => rfl
      | ok f =>
        rw [hp] at h
        simp [Except.isOk, Except.toBool] at h
    · cases hp : parseFilter r.filter with
      | error e => rfl
      | ok f =>
        cases hq : parseFilter req.filter with
        | error e => rfl
        | ok g =>
          rw [hq] at h
          simp [Except.isOk, Except.toBool] at h
  have hrm : ruleMatches r req = false := by
    rw [ruleMatches, hm]
    simp
  show (if ruleMatches r req then some r else findMatchingRule rest req) =
    findMatchingRule rest req
  rw [hrm]
  simp

theorem c7_parse_failure_skips_witness :
    findMatchingRule
      [Rule.mk [] [] (s2l ("oops")) [] [] 0 (Response.mk [] [])]
      (SearchRequest.mk [] .sub (s2l ("(cn=a)"))) =
    findMatchingRule [] (SearchRequest.mk [] .sub (s2l ("(cn=a)"))) :=
  c7_parse_failure_skips
    (Rule.mk [] [] (s2l ("oops")) [] [] 0 (Response.mk [] []))
    [] (SearchRequest.mk [] .sub (s2l ("(cn=a)")))
    (Or.inl rfl)

/-- Claim C8: `filterUsers` returns every record unchanged when the
filter text is the universal filter "(objectClass=*)" or empty, and also
when the filter text fails to parse (fail open); in every case the
result is a sublist of the input, so only a successfully parsed
non-universal filter ever removes records. -/
theorem c8_fail_open :
    ∀ (users : List User) (fs : Str),
      (fs = s2l ("(objectClass=*)") → filterUsers users fs = users) ∧
      (fs = [] → filterUsers users fs = users) ∧
      ((parseFilter fs).isOk = false → filterUsers users fs = users) ∧
      (filterUsers users fs).Sublist users := by
  intro users fs
  refine ⟨?_, ?_, ?_, ?_⟩
  · intro h
    rw [filterUsers, if_pos (Or.inl h)]
  · intro h
    rw [filterUsers, if_pos (Or.inr h)]
  · intro h
    rw [filterUsers]
    by_cases hu : fs = s2l ("(objectClass=*)") ∨ fs = []
    · rw [if_pos hu]
    · rw [if_neg hu]
      cases hp : parseFilter fs with
      | error e => rfl
      | ok f =>
        rw [hp] at h
        simp [Except.isOk, Except.toBool] at h
  · rw [filterUsers]
    by_cases hu : fs = s2l ("(objectClass=*)") ∨ fs = []
    · rw [if_pos hu]
    · rw [if_neg hu]
      cases hp : parseFilter fs with
      | error e => exact List.Sublist.refl users
      | ok f => exact List.filter_sublist users

theorem c8_fail_open_witness :
    filterUsers [User.mk (s2l ("u1")) []] (s2l ("(not-a-filter")) =
      [User.mk (s2l ("u1")) []] :=
  (c8_fail_open [User.mk (s2l ("u1")) []] (s2l ("(not-a-filter"))).2.2.1 rfl

/-- Claim C9: `buildFilter` returns the universal filter
"(objectClass=*)" both when the search attribute is empty and when it is
the reserved string "searchFingerprint"; for every other attribute the
result is the plain concatenation "(" ++ attr ++ "=" ++ value ++ ")"
with no escaping of the value. -/
theorem c9_buildFilter :
    ∀ (attr value : Str),
      (buildFilter [] value = s2l ("(objectClass=*)")) ∧
      (buildFilter (s2l ("searchFingerprint")) value = s2l ("(objectClass=*)")) ∧
      (attr ≠ [] → attr ≠ s2l ("searchFingerprint") →
        buildFilter attr value = '(' :: attr ++ '=' :: value ++ [')']) := by
  intro attr value
  refine ⟨rfl, rfl, ?_⟩
  intro h1 h2
  rw [buildFilter, if_neg ?_]
  rintro (h | h)
  · exact h1 h
  · exact h2 h

theorem c9_buildFilter_witness :
    buildFilter (s2l ("cn")) (s2l ("Jo")) = '(' :: s2l ("cn") ++ '=' :: s2l ("Jo") ++ [')'] :=
  (c9_buildFilter (s2l ("cn")) (s2l ("Jo"))).2.2 (by decide) (by decide)

/-- Claim C10: the attribute set `filterUsers` builds for a record first
binds the reserved key "cn" to the record's identity field and then
writes the record's declared attributes over it, so a declared "cn"
attribute overrides the identity for filter evaluation (in the
insertion-sequence model, the later binding wins on lookup); concretely,
a user with identity "alice" that declares cn = "bob" is kept by the
filter (cn=bob) and dropped by (cn=alice). -/
theorem c10_cn_override :
    (∀ (u : User) (v : Str),
      (lookupA u.attrs (s2l ("cn")) = some v →
        lookupA (buildAttrs u) (s2l ("cn")) = some v) ∧
      (lookupA u.attrs (s2l ("cn")) = none →
        lookupA (buildAttrs u) (s2l ("cn")) = some u.cn)) ∧
    filterUsers [User.mk (s2l ("alice")) [(s2l ("cn"), s2l ("bob"))]] (s2l ("(cn=bob)")) =
      [User.mk (s2l ("alice")) [(s2l ("cn"), s2l ("bob"))]] ∧
    filterUsers [User.mk (s2l ("alice")) [(s2l ("cn"), s2l ("bob"))]] (s2l ("(cn=alice)")) =
      [] := by
  refine ⟨?_, rfl, rfl⟩
  intro u v
  constructor
  · intro h
    show (match lookupA u.attrs (s2l ("cn")) with
      | some w => some w
      | none => if (s2l ("cn"), u.cn).1 = s2l ("cn") then some (s2l ("cn"), u.cn).2 else none) =
      some v
    rw [h]
  · intro h
    show (match lookupA u.attrs (s2l ("cn")) with
      | some w => some w
      | none => if (s2l ("cn"), u.cn).1 = s2l ("cn") then some (s2l ("cn"), u.cn).2 else none) =
      some u.cn
    rw [h]
    simp

theorem c10_cn_override_witness :
    lookupA (buildAttrs (User.mk (s2l ("alice")) [(s2l ("cn"), s2l ("bob"))])) (s2l ("cn")) =
      some (s2l ("bob")) :=
  (c10_cn_override.1 (User.mk (s2l ("alice")) [(s2l ("cn"), s2l ("bob"))]) (s2l ("bob"))).1 rfl

example : parseFilter (s2l ("(cn=John)")) =
    .ok (FilterNode.mk .equal (s2l ("cn")) (s2l ("John")) [] [] [] []) := rfl
example : parseFilter (s2l ("(CN=John)")) =
    .ok (FilterNode.mk .equal (s2l ("cn")) (s2l ("John")) [] [] [] []) := rfl
example : parseFilter (s2l ("(mail=*)")) =
    .ok (FilterNode.mk .present (s2l ("mail")) [] [] [] [] []) := rfl
example : parseFilter (s2l ("(cn=J*o*h*n)")) =
    .ok (FilterNode.mk .substring (s2l ("cn")) [] [] (s2l ("J")) [s2l ("o"), s2l ("h")] (s2l ("n"))) := rfl
example : parseFilter (s2l ("(&(cn=John)(mail=*))")) =
    .ok (FilterNode.mk .and [] [] [FilterNode.mk .equal (s2l ("cn")) (s2l ("John")) [] [] [] [],
      FilterNode.mk .present (s2l ("mail")) [] [] [] [] []] [] [] []) := rfl
example : parseFilter (s2l ("(!(cn=John))")) =
    .ok (FilterNode.mk .not [] [] [FilterNode.mk .equal (s2l ("cn")) (s2l ("John")) [] [] [] []] [] [] []) := rfl
example : parseFilter (s2l ("")) = .error ("empty filter") := rfl
example : parseFilter (s2l ("(&)")) = .error ("empty filter list") := rfl
example : parseFilter (s2l ("(a=1)(b=2)")) =
    .ok (FilterNode.mk .equal (s2l ("a")) (s2l ("1)(b=2")) [] [] [] []) := rfl
example : wildcardMatch (s2l ("John*")) (s2l ("JohnDoe")) = true := rfl
example : wildcardMatch (s2l ("John*")) (s2l ("John")) = true := rfl
example : wildcardMatch (s2l ("*Doe")) (s2l ("Doe")) = true := rfl
example : wildcardMatch (s2l ("J*n*e")) (s2l ("Janine")) = true := rfl
example : wildcardMatch (s2l ("John*")) (s2l ("Jane")) = false := rfl
example : wildcardMatch (s2l ("John")) (s2l ("Jane")) = false := rfl
example : wildcardMatch (s2l ("*|b")) (s2l ("zzz")) = true := rfl
example : specWildcardMatch (s2l ("*|b")) (s2l ("zzz")) = false := rfl
example : matchRuleFilter (s2l ("(&(cn=John))")) (s2l ("(&(cn=John)(mail=john@example.com))")) = true := rfl
example : matchRuleFilter (s2l ("(&(cn=John)(mail=john@example.com))")) (s2l ("(&(cn=John))")) = false := rfl
example : matchRuleFilter (s2l ("(|(cn=John))")) (s2l ("(cn=John)")) = true := rfl
example : matchRuleFilter (s2l ("(cn=john)")) (s2l ("(cn=JOHN)")) = true := rfl
example : matchRuleFilter (s2l ("(cn=*)")) (s2l ("(cn=*)")) = true := rfl
example : matchRuleFilter (s2l ("(cn=John*)")) (s2l ("(cn=John)")) = false := rfl
example : matchRuleFilter (s2l ("(cn=John*)")) (s2l ("(cn=John*)")) = true := rfl
example : matchFilter (FilterNode.mk .equal (s2l ("cn")) (s2l ("john")) [] [] [] [])
    [(s2l ("CN"), s2l ("JOHN"))] = true := rfl
example : matchSubstring (s2l ("JohnMiddleDoe")) (s2l ("John")) [s2l ("Middle")] (s2l ("Doe")) = true := rfl
example : matchSubstring (s2l ("abc")) (s2l ("ab")) [] (s2l ("bc")) = false := rfl
example : filterUsers [User.mk (s2l ("u1")) []] (s2l ("(objectClass=*)")) = [User.mk (s2l ("u1")) []] := rfl
example : buildFilter (s2l ("cn")) (s2l ("John")) = s2l ("(cn=John)") := rfl
example : buildFilter (s2l ("searchFingerprint")) (s2l ("x")) = s2l ("(objectClass=*)") := rfl
